import Mathlib

/-!
Shallow embedding of the change-detection / tiered-escalation engine
(`footprints.py`, `vision_ocr.py`, `vision_router.py`).

Modelling conventions:
* SQLite tables become in-memory lists; the `pages` table is an association
  list keyed by `url`, the `escalations` and `runs` tables are append-only
  lists of rows.  SQLite's PRIMARY-KEY uniqueness on `runs.ts` is embedded
  explicitly in `Footprints.record_run_summary`.
* `time.time()` is abstracted by an explicit clock value (`Env.now`).
* SHA hashing (`text_sha`, `img_sha`) and the external OCR backends
  (PaddleOCR, Azure) are abstracted as opaque functions carried in `Env`;
  the pure aggregation logic *inside* `PaddleClient.run` / `AzureVisionClient.run`
  (the loop after the detector call) is embedded separately and exactly.
* Python `float` confidences are modelled as rationals; Python exceptions
  from the Gemini callback are modelled by `Except`, the `.error` payload
  carrying the router state at the moment the exception propagates.
-/

/-- One row of the `pages` table (`CREATE_PAGES` in footprints.py). SQL NULL
and the empty string are identified, matching the `or ""` coalescing in
`Footprints.get`. -/
structure PageRow where
  canonical_url : String
  first_seen : Nat
  last_seen : Nat
  last_model : String
  screenshot_sha : String
  text_sha_paddle : String
  text_sha_azure : String
  etag : String
  last_modified : String
  deriving Repr, DecidableEq

/-- One row of the `escalations` table; the `info` JSON payload written by
`record_escalation` always holds the pair (confidence, char count), kept here
as two typed fields. -/
structure EscalRow where
  ts : Nat
  url : String
  from_model : String
  to_model : String
  reason : String
  info_conf : ℚ
  info_chars : Nat
  deriving Repr, DecidableEq

/-- One row of the `runs` table (`CREATE_RUNS`): `ts` is the PRIMARY KEY. -/
structure RunRow where
  ts : Nat
  skipped_nochange : Nat
  used_cheap_ocr : Nat
  escalated_to_gemini : Nat
  deriving Repr, DecidableEq

/-- The fingerprint store: the three tables of `footprints.py`. -/
structure Footprints where
  pages : List (String × PageRow)
  escalations : List EscalRow
  runs : List RunRow
  deriving Repr, DecidableEq

/-- Lookup of a url key in the pages association list (first match, as for a
PRIMARY KEY column). -/
def pagesGet : List (String × PageRow) → String → Option PageRow
  | [], _ => none
  | (u, r) :: rest, url => if u = url then some r else pagesGet rest url

/-- Model of `Footprints.get`: SELECT of the row for `url`, `None` when absent. -/
def Footprints.get (fp : Footprints) (url : String) : Option PageRow :=
  pagesGet fp.pages url

/-- The keyword arguments a caller may pass to `Footprints.upsert`; `none`
models an argument not supplied (the Python code also drops explicit `None`
values before building the SQL statement). -/
structure UpsertArgs where
  canonical_url : Option String
  last_model : Option String
  screenshot_sha : Option String
  text_sha_paddle : Option String
  text_sha_azure : Option String
  etag : Option String
  last_modified : Option String
  deriving Repr

/-- UpsertArgs with nothing supplied. -/
def UpsertArgs.empty : UpsertArgs :=
  ⟨none, none, none, none, none, none, none⟩

/-- Effect of the UPDATE branch of `upsert` on an existing row: each supplied
field overwrites, each unsupplied field is kept, and `last_seen` is refreshed
unconditionally. -/
def applyKvs (row : PageRow) (kvs : UpsertArgs) (now : Nat) : PageRow :=
  { canonical_url := kvs.canonical_url.getD row.canonical_url
    first_seen := row.first_seen
    last_seen := now
    last_model := kvs.last_model.getD row.last_model
    screenshot_sha := kvs.screenshot_sha.getD row.screenshot_sha
    text_sha_paddle := kvs.text_sha_paddle.getD row.text_sha_paddle
    text_sha_azure := kvs.text_sha_azure.getD row.text_sha_azure
    etag := kvs.etag.getD row.etag
    last_modified := kvs.last_modified.getD row.last_modified }

/-- The INSERT branch of `upsert`: unspecified columns default to empty,
`first_seen` and `last_seen` are both set to the current time. -/
def freshRow (kvs : UpsertArgs) (now : Nat) : PageRow :=
  { canonical_url := kvs.canonical_url.getD ""
    first_seen := now
    last_seen := now
    last_model := kvs.last_model.getD ""
    screenshot_sha := kvs.screenshot_sha.getD ""
    text_sha_paddle := kvs.text_sha_paddle.getD ""
    text_sha_azure := kvs.text_sha_azure.getD ""
    etag := kvs.etag.getD ""
    last_modified := kvs.last_modified.getD "" }

/-- Update of the pages list at a key. -/
def pagesUpdate (ps : List (String × PageRow)) (url : String) (kvs : UpsertArgs)
    (now : Nat) : List (String × PageRow) :=
  ps.map (fun p => if p.1 = url then (p.1, applyKvs p.2 kvs now) else p)

/-- Model of `Footprints.upsert`: partial update of an existing row, or insert of a
fresh row; every call refreshes `last_seen` to the current time. -/
def Footprints.upsert (fp : Footprints) (url : String) (kvs : UpsertArgs)
    (now : Nat) : Footprints :=
  match fp.get url with
  | some _ => { fp with pages := pagesUpdate fp.pages url kvs now }
  | none => { fp with pages := fp.pages ++ [(url, freshRow kvs now)] }

/-- Model of `Footprints.record_escalation`: appends one row to the `escalations` log. -/
def Footprints.record_escalation (fp : Footprints) (url from_model to_model
    reason : String) (info_conf : ℚ) (info_chars : Nat) (now : Nat) : Footprints :=
  { fp with escalations :=
      fp.escalations ++ [⟨now, url, from_model, to_model, reason, info_conf, info_chars⟩] }

/-- Model of `Footprints.record_run_summary`: INSERT into `runs`, whose `ts` column is
declared `INTEGER PRIMARY KEY`; embedding SQLite semantics, an insert with a
`ts` value already present violates the uniqueness constraint and raises
(sqlite3.IntegrityError), modelled as `.error`. -/
def Footprints.record_run_summary (fp : Footprints) (now skipped used_ocr
    escalated : Nat) : Except String Footprints :=
  if fp.runs.any (fun r => r.ts = now) then
    .error "UNIQUE constraint failed: runs.ts"
  else
    .ok { fp with runs := fp.runs ++ [⟨now, skipped, used_ocr, escalated⟩] }

/-- Python `str.strip()`: remove leading and trailing whitespace. -/
def stripStr (s : String) : String :=
  ⟨((s.data.dropWhile Char.isWhitespace).reverse.dropWhile Char.isWhitespace).reverse⟩

/-- Structure `OCRText` from vision_ocr.py (the `extra` diagnostics dict, which only
carries latency and line counts, is not needed by any consumer modelled
here). Confidence is a rational standing for the Python float. -/
structure OCRText where
  text : String
  confidence : ℚ
  model : String
  deriving Repr, DecidableEq

/-- Mean of a list of rationals, 0 for the empty list: the shape
`sum(confs)/len(confs) if confs else 0.0` shared by both OCR clients. -/
def meanD0 (cs : List ℚ) : ℚ :=
  if cs = [] then 0 else cs.sum / cs.length

/-- One detected line as seen by `PaddleClient.run`: `none` models a falsy
`line`/`line[1]`, otherwise the `(text, score)` pair. -/
abbrev PaddleLine := Option (String × ℚ)

/-- The accumulation loop of `PaddleClient.run`: walk blocks and lines,
keeping the text and score of every line whose text is non-empty. -/
def paddleCollect (result : List (List PaddleLine)) : List String × List ℚ :=
  result.foldl
    (fun acc block =>
      block.foldl
        (fun acc2 line =>
          let txt := match line with | some p => p.1 | none => ""
          let score := match line with | some p => p.2 | none => 0
          if txt ≠ "" then (acc2.1 ++ [txt], acc2.2 ++ [score]) else acc2)
        acc)
    ([], [])

/-- Pure tail of `PaddleClient.run` after the detector call: join kept lines
with newlines, strip, and average the kept scores (0.0 when none). -/
def paddleRunModel (result : List (List PaddleLine)) : OCRText :=
  let collected := paddleCollect result
  let text := stripStr (String.intercalate "\n" collected.1)
  let conf := if collected.2 = [] then 0 else collected.2.sum / collected.2.length
  ⟨text, conf, "paddle"⟩

/-- One line of the Azure v4 read result: its `text` value and its words,
each word carrying a confidence only when the `confidence` key is present. -/
abbrev AzureLine := String × List (Option ℚ)

/-- The accumulation loop of `AzureVisionClient.run`: line texts are stripped
and kept when non-empty; word confidences are collected from every line,
regardless of whether that line's text was empty. -/
def azureCollect (blocks : List (List AzureLine)) : List String × List ℚ :=
  blocks.foldl
    (fun acc block =>
      block.foldl
        (fun acc2 line =>
          let txt := stripStr line.1
          let kept := if txt ≠ "" then acc2.1 ++ [txt] else acc2.1
          (kept, acc2.2 ++ line.2.filterMap id))
        acc)
    ([], [])

/-- Pure tail of `AzureVisionClient.run` after the HTTP call: join kept lines,
strip, and set confidence to the mean word confidence when any were reported,
else 0.9 when text was detected and 0.0 otherwise. -/
def azureRunModel (blocks : List (List AzureLine)) : OCRText :=
  let collected := azureCollect blocks
  let text := stripStr (String.intercalate "\n" collected.1)
  let conf :=
    if collected.2 = [] then (if text ≠ "" then (9 : ℚ)/10 else 0)
    else collected.2.sum / collected.2.length
  ⟨text, conf, "azure"⟩

/-- Structure `RouterConfig` from vision_router.py; `order` is the value after
`__post_init__` has substituted the default when the caller passed nothing. -/
structure RouterConfig where
  enable_paddle : Bool
  enable_azure : Bool
  enable_gemini : Bool
  order : List String
  min_chars_for_confidence : Nat
  min_confidence : ℚ
  deriving Repr

/-- RouterConfig with the dataclass defaults. -/
def RouterConfig.default : RouterConfig :=
  ⟨true, true, true, ["paddle", "azure", "gemini"], 300, 65/100⟩

/-- Environment of effects the router calls out to: the clock, the two hash
functions of vision_ocr.py, and the two OCR backends viewed as functions from
screenshot bytes to their `OCRText` result. -/
structure Env where
  now : Nat
  imgSha : List Nat → String
  textSha : String → String
  paddleRun : List Nat → OCRText
  azureRun : List Nat → OCRText

/-- Mutable state of one `VisionRouter` instance: the store handle plus the
three headline counters. -/
structure RouterState where
  store : Footprints
  skipped_nochange : Nat
  used_cheap_ocr : Nat
  escalated_to_gemini : Nat
  deriving Repr, DecidableEq

/-- The decision dict returned by `check_or_escalate`. -/
structure Decision where
  status : String
  changed : Bool
  fields : List (String × String)
  deriving Repr, DecidableEq

/-- Result fields of the Gemini callback. -/
abbrev Fields := List (String × String)

/-- The caller-supplied Gemini callback; `.error` models a raised exception. -/
abbrev GeminiCb := Option (Unit → Except Unit Fields)

/-- Model of `VisionRouter._needs_escalation`: escalate on blank text, short text, low
confidence, or a stored per-tier hash that exists and differs from the hash of
the new text. The `Option` input mirrors the Python truthiness test on `o`. -/
def needs_escalation (env : Env) (cfg : RouterConfig) (o : Option OCRText)
    (prev_text_sha : String) : Bool :=
  match o with
  | none => true
  | some o =>
    if (stripStr o.text = "") then true
    else if o.text.length < cfg.min_chars_for_confidence then true
    else if o.confidence < cfg.min_confidence then true
    else if prev_text_sha ≠ "" ∧ env.textSha o.text ≠ prev_text_sha then true
    else false

/-- UpsertArgs of the fast-path and Gemini-tier upserts (screenshot hash with
or without `last_model`) and of the two OCR-tier upserts. -/
def shotOnlyArgs (shot_sha : String) : UpsertArgs :=
  { UpsertArgs.empty with screenshot_sha := some shot_sha }

/-- UpsertArgs of the paddle-tier upsert. -/
def paddleArgs (shot_sha sha : String) : UpsertArgs :=
  { UpsertArgs.empty with screenshot_sha := some shot_sha,
                          text_sha_paddle := some sha, last_model := some "paddle" }

/-- UpsertArgs of the azure-tier upsert. -/
def azureArgs (shot_sha sha : String) : UpsertArgs :=
  { UpsertArgs.empty with screenshot_sha := some shot_sha,
                          text_sha_azure := some sha, last_model := some "azure" }

/-- UpsertArgs of the gemini-tier upsert. -/
def geminiArgs (shot_sha : String) : UpsertArgs :=
  { UpsertArgs.empty with screenshot_sha := some shot_sha, last_model := some "gemini" }

/-- Python coalescing `last_stage or "ocr"` of the exhaustion return: the
fallback applies to every falsy value of `last_stage`, i.e. both `None` and
the empty string. -/
def lastStageOrOcr : Option String → String
  | some s => if s = "" then "ocr" else s
  | none => "ocr"

/-- The `for stage in self.cfg.order` loop of `check_or_escalate`, as a
recursion over the remaining stages.  Arguments `ocr_used` and `last_stage`
carry the loop-local variables of the Python code; the prev-tier hashes were
read from the store before the loop.  `.error st` models an exception from the
Gemini callback propagating out of the router with state `st` at the raise. -/
def tierWalk (env : Env) (cfg : RouterConfig) (url shot_sha prev_paddle_sha
    prev_azure_sha : String) (screenshot_bytes : List Nat) (cb : GeminiCb) :
    List String → RouterState → Bool → Option String →
    Except RouterState (Decision × RouterState)
  | [], st, ocr_used, last_stage =>
    if ocr_used then
      .ok (⟨lastStageOrOcr last_stage, true, []⟩, st)
    else
      .ok (⟨"noop", true, []⟩, st)
  | stage :: rest, st, ocr_used, _ =>
    if stage = "paddle" ∧ cfg.enable_paddle then
      let o := env.paddleRun screenshot_bytes
      let sha := env.textSha o.text
      let st1 : RouterState :=
        { st with store := st.store.upsert url (paddleArgs shot_sha sha) env.now }
      if needs_escalation env cfg (some o) prev_paddle_sha = false then
        .ok (⟨"paddle", false, []⟩, { st1 with used_cheap_ocr := st1.used_cheap_ocr + 1 })
      else
        let esc := st1.store.record_escalation url "paddle" "next" "low_conf_or_changed" o.confidence o.text.length env.now
        let st2 : RouterState := { st1 with store := esc }
        tierWalk env cfg url shot_sha prev_paddle_sha prev_azure_sha
          screenshot_bytes cb rest st2 true (some stage)
    else if stage = "azure" ∧ cfg.enable_azure then
      let o := env.azureRun screenshot_bytes
      let sha := env.textSha o.text
      let st1 : RouterState :=
        { st with store := st.store.upsert url (azureArgs shot_sha sha) env.now }
      if needs_escalation env cfg (some o) prev_azure_sha = false then
        .ok (⟨"azure", false, []⟩, { st1 with used_cheap_ocr := st1.used_cheap_ocr + 1 })
      else
        let esc := st1.store.record_escalation url "azure" "next" "low_conf_or_changed" o.confidence o.text.length env.now
        let st2 : RouterState := { st1 with store := esc }
        tierWalk env cfg url shot_sha prev_paddle_sha prev_azure_sha
          screenshot_bytes cb rest st2 true (some stage)
    else if stage = "gemini" ∧ cfg.enable_gemini then
      let st1 : RouterState := { st with escalated_to_gemini := st.escalated_to_gemini + 1 }
      match cb with
      | some f =>
        match f () with
        | .ok fields =>
          let st2 : RouterState :=
            { st1 with store := st1.store.upsert url (geminiArgs shot_sha) env.now }
          .ok (⟨"gemini", true, fields⟩, st2)
        | .error _ => .error st1
      | none =>
        let st2 : RouterState :=
          { st1 with store := st1.store.upsert url (geminiArgs shot_sha) env.now }
        .ok (⟨"gemini", true, []⟩, st2)
    else
      tierWalk env cfg url shot_sha prev_paddle_sha prev_azure_sha
        screenshot_bytes cb rest st ocr_used (some stage)

/-- Stored paddle-tier text hash for a url, empty when no row exists
(`prev.text_sha_paddle if prev else ""`). -/
def prevPaddleSha (fp : Footprints) (url : String) : String :=
  match fp.get url with | some p => p.text_sha_paddle | none => ""

/-- Stored azure-tier text hash for a url, empty when no row exists. -/
def prevAzureSha (fp : Footprints) (url : String) : String :=
  match fp.get url with | some p => p.text_sha_azure | none => ""

/-- Condition of the fast-path skip: a prior fingerprint exists and its
stored screenshot hash equals the hash of the new screenshot bytes. -/
def fastSkipCond (env : Env) (fp : Footprints) (url : String)
    (screenshot_bytes : List Nat) : Bool :=
  match fp.get url with
  | some p => p.screenshot_sha = env.imgSha screenshot_bytes
  | none => false

/-- Model of `VisionRouter.check_or_escalate`: fast-path skip on an unchanged
screenshot, else the tier walk.  `previous_fp` mirrors the keyword parameter
of the Python signature. -/
def check_or_escalate (env : Env) (cfg : RouterConfig) (st : RouterState)
    (url : String) (screenshot_bytes : List Nat) (previous_fp : Option PageRow)
    (on_need_gemini : GeminiCb) : Except RouterState (Decision × RouterState) :=
  let prev := st.store.get url
  let prev_paddle_sha := match prev with | some p => p.text_sha_paddle | none => ""
  let prev_azure_sha := match prev with | some p => p.text_sha_azure | none => ""
  let shot_sha := env.imgSha screenshot_bytes
  let skip : Bool :=
    match prev with
    | some p => p.screenshot_sha = shot_sha
    | none => false
  if skip then
    .ok (⟨"skipped", false, []⟩,
      { st with skipped_nochange := st.skipped_nochange + 1,
                store := st.store.upsert url (shotOnlyArgs shot_sha) env.now })
  else
    tierWalk env cfg url shot_sha prev_paddle_sha prev_azure_sha
      screenshot_bytes on_need_gemini cfg.order st false none

/-- Concrete page row used by several witnesses. -/
def rowW : PageRow :=
  ⟨"", 10, 10, "paddle", "IMG", "TP", "TA", "", ""⟩

/-- Concrete environment used by witnesses: a fixed clock, constant hash
functions, and OCR backends returning empty text. -/
def envW : Env :=
  { now := 100, imgSha := fun _ => "IMG", textSha := fun _ => "T",
    paddleRun := fun _ => ⟨"", 0, "paddle"⟩,
    azureRun := fun _ => ⟨"", 0, "azure"⟩ }

/-- Concrete router state whose store already fingerprints url "u" with
screenshot hash "IMG". -/
def stW : RouterState := ⟨⟨[("u", rowW)], [], []⟩, 0, 0, 0⟩

/-- Characterization of the stages on which the loop body actually runs an
analyzer (the two OCR tiers, when enabled). -/
def stageRuns (cfg : RouterConfig) (stage : String) : Bool :=
  if stage = "paddle" ∧ cfg.enable_paddle then true
  else if stage = "azure" ∧ cfg.enable_azure then true
  else false

/-- Characterization of the stages at which the loop body returns a terminal
decision: an enabled OCR tier whose escalation predicate does not fire, or the
enabled gemini tier (which always returns or raises).  The predicate depends
only on the inputs read by the loop body, not on the evolving state. -/
def stageReturns (env : Env) (cfg : RouterConfig) (bytes : List Nat)
    (pp pa : String) (stage : String) : Bool :=
  if stage = "paddle" ∧ cfg.enable_paddle then
    !(needs_escalation env cfg (some (env.paddleRun bytes)) pp)
  else if stage = "azure" ∧ cfg.enable_azure then
    !(needs_escalation env cfg (some (env.azureRun bytes)) pa)
  else if stage = "gemini" ∧ cfg.enable_gemini then true
  else false

/-- State effect of one loop iteration that does not return: an enabled OCR
tier that escalates performs its upsert and logs the escalation event; any
other non-returning stage leaves the state unchanged. -/
def applyStage (env : Env) (cfg : RouterConfig) (url shot_sha : String)
    (bytes : List Nat) (st : RouterState) (stage : String) : RouterState :=
  if stage = "paddle" ∧ cfg.enable_paddle then
    let o := env.paddleRun bytes
    let sha := env.textSha o.text
    let st1 : RouterState :=
      { st with store := st.store.upsert url (paddleArgs shot_sha sha) env.now }
    let esc := st1.store.record_escalation url "paddle" "next" "low_conf_or_changed" o.confidence o.text.length env.now
    { st1 with store := esc }
  else if stage = "azure" ∧ cfg.enable_azure then
    let o := env.azureRun bytes
    let sha := env.textSha o.text
    let st1 : RouterState :=
      { st with store := st.store.upsert url (azureArgs shot_sha sha) env.now }
    let esc := st1.store.record_escalation url "azure" "next" "low_conf_or_changed" o.confidence o.text.length env.now
    { st1 with store := esc }
  else st

/-- Accumulated state effect of a run of non-returning iterations. -/
def applyStages (env : Env) (cfg : RouterConfig) (url shot_sha : String)
    (bytes : List Nat) (st : RouterState) (stages : List String) : RouterState :=
  stages.foldl (applyStage env cfg url shot_sha bytes) st

/-- Value of the loop variable `last_stage` after iterating a list of stages
starting from a previous value. -/
def lastOpt : List String → Option String → Option String
  | [], last => last
  | s :: rest, _ => lastOpt rest (some s)

/-- A router configuration with only the local paddle tier enabled, default
order and thresholds. -/
def cfgPaddleOnly : RouterConfig :=
  { RouterConfig.default with enable_azure := false, enable_gemini := false }

/-- A fresh router state over an empty store. -/
def st0 : RouterState := ⟨⟨[], [], []⟩, 0, 0, 0⟩

/-- Concrete always-raising Gemini callback. -/
def cbRaise : Unit → Except Unit Fields := fun _ => .error ()

/-- A router configuration whose order goes straight to the gemini tier. -/
def cfgGeminiFirst : RouterConfig :=
  { RouterConfig.default with order := ["gemini"] }

/-- Router state carried by either outcome of a call: the updated state on a
normal return, or the state at the raise when an exception propagates. -/
def stateOf : Except RouterState (Decision × RouterState) → RouterState
  | .ok (_, s) => s
  | .error s => s

/-- Router configuration for the low-confidence scenario: paddle only, text
threshold 3 characters, confidence threshold 1. -/
def cfgLowConf : RouterConfig :=
  ⟨true, false, false, ["paddle", "azure", "gemini"], 3, 1⟩

/-- Environment whose paddle analyzer returns adequate text ("abc", exactly
the threshold length) with confidence 0, strictly below the threshold, so the
escalation predicate fires through the confidence clause alone. -/
def envLowConf : Env :=
  { now := 100, imgSha := fun _ => "IMG", textSha := fun _ => "T",
    paddleRun := fun _ => ⟨"abc", 0, "paddle"⟩,
    azureRun := fun _ => ⟨"", 0, "azure"⟩ }

/-- Sum of the three headline counters of a router instance. -/
def counterSum (st : RouterState) : Nat :=
  st.skipped_nochange + st.used_cheap_ocr + st.escalated_to_gemini

/-- A call reaches a terminal decision of one of the three counted kinds
exactly when the fast path skips or some stage of the order returns. -/
def callTerminal (env : Env) (cfg : RouterConfig) (st : RouterState)
    (url : String) (bytes : List Nat) : Bool :=
  fastSkipCond env st.store url bytes ||
    cfg.order.any (fun s => stageReturns env cfg bytes
      (prevPaddleSha st.store url) (prevAzureSha st.store url) s)

/-- Inputs of one `check_or_escalate` call in a batch. -/
structure CallInput where
  url : String
  bytes : List Nat
  previous_fp : Option PageRow
  cb : GeminiCb

/-- A batch: sequential non-error calls on one router; `none` when some call
raised. -/
def runBatch (env : Env) (cfg : RouterConfig) :
    RouterState → List CallInput → Option RouterState
  | st, [] => some st
  | st, c :: cs =>
    match check_or_escalate env cfg st c.url c.bytes c.previous_fp c.cb with
    | .ok (_, st') => runBatch env cfg st' cs
    | .error _ => none

/-- Number of calls of a batch whose tier walk reaches a terminal decision of
a counted kind, evaluated against the store state at each call. -/
def terminalCount (env : Env) (cfg : RouterConfig) :
    RouterState → List CallInput → Nat
  | _, [] => 0
  | st, c :: cs =>
    match check_or_escalate env cfg st c.url c.bytes c.previous_fp c.cb with
    | .ok (_, st') =>
      (if callTerminal env cfg st c.url c.bytes then 1 else 0) +
        terminalCount env cfg st' cs
    | .error _ => 0

/-- Division-free configuration under which the cheap paddle tier passes:
text threshold 1, confidence threshold 0, only paddle enabled. -/
def cfgCheap : RouterConfig :=
  ⟨true, false, false, ["paddle", "azure", "gemini"], 1, 0⟩

/-- Environment whose paddle analyzer returns text "abc" with confidence 0,
which passes the thresholds of `cfgCheap`. -/
def envCheap : Env :=
  { now := 100, imgSha := fun _ => "IMG", textSha := fun _ => "T",
    paddleRun := fun _ => ⟨"abc", 0, "paddle"⟩,
    azureRun := fun _ => ⟨"", 0, "azure"⟩ }

/-! ## Theorems -/

/-- Reading the updated key after `pagesUpdate` yields the updated row. -/
theorem pagesGet_update_self (ps : List (String × PageRow)) (url : String)
    (kvs : UpsertArgs) (now : Nat) :
    pagesGet (pagesUpdate ps url kvs now) url
      = (pagesGet ps url).map (fun r => applyKvs r kvs now) := by
  induction ps with
  | nil => rfl
  | cons p rest ih =>
    obtain ⟨u0, r0⟩ := p
    simp only [pagesUpdate, List.map_cons] at ih ⊢
    by_cases h : u0 = url
    · rw [if_pos h]
      simp [pagesGet, h]
    · rw [if_neg h]
      simp [pagesGet, h, ih]

/-- Reading any other key after `pagesUpdate` is unchanged. -/
theorem pagesGet_update_other (ps : List (String × PageRow)) (url : String)
    (kvs : UpsertArgs) (now : Nat) (u : String) (hu : u ≠ url) :
    pagesGet (pagesUpdate ps url kvs now) u = pagesGet ps u := by
  induction ps with
  | nil => rfl
  | cons p rest ih =>
    obtain ⟨u0, r0⟩ := p
    simp only [pagesUpdate, List.map_cons] at ih ⊢
    by_cases h : u0 = url
    · have hne : u0 ≠ u := by rw [h]; exact fun hh => hu hh.symm
      rw [if_pos h]
      simp [pagesGet, hne, ih]
    · rw [if_neg h]
      by_cases h2 : u0 = u
      · simp [pagesGet, h2]
      · simp [pagesGet, h2, ih]

/-- Upsert never touches the escalations log. -/
theorem upsert_escalations (fp : Footprints) (url : String) (kvs : UpsertArgs)
    (now : Nat) : (fp.upsert url kvs now).escalations = fp.escalations := by
  unfold Footprints.upsert
  cases fp.get url <;> rfl

/-- C1: for the analyzer tiers, `_needs_escalation` fires exactly when the
extracted text is blank, or its length is strictly below
`min_chars_for_confidence`, or the confidence is strictly below
`min_confidence`, or a previous hash for the same tier exists and differs
from the hash of the new text.  Both the paddle and the azure stage of
`tierWalk` call this predicate with their own stored hash
(`prev_paddle_sha` / `prev_azure_sha`).  Since the length disjunct is a
strict inequality, a text of length exactly `min_chars_for_confidence`
never fires that condition alone. -/
theorem needs_escalation_iff (env : Env) (cfg : RouterConfig) (o : OCRText)
    (prev_text_sha : String) :
    needs_escalation env cfg (some o) prev_text_sha = true ↔
      (stripStr o.text = "" ∨ o.text.length < cfg.min_chars_for_confidence ∨
       o.confidence < cfg.min_confidence ∨
       (prev_text_sha ≠ "" ∧ env.textSha o.text ≠ prev_text_sha)) := by
  constructor
  · intro h
    simp only [needs_escalation] at h
    split_ifs at h with h1 h2 h3 h4
    · exact Or.inl h1
    · exact Or.inr (Or.inl h2)
    · exact Or.inr (Or.inr (Or.inl h3))
    · exact Or.inr (Or.inr (Or.inr h4))
  · intro h
    simp only [needs_escalation]
    split_ifs with h1 h2 h3 h4
    · rfl
    · rfl
    · rfl
    · rfl
    · rcases h with h | h | h | h
      · exact absurd h h1
      · exact absurd h h2
      · exact absurd h h3
      · exact absurd h h4

/-- C9: the `previous_fp` keyword parameter of `check_or_escalate` is never
read; two calls differing only in it return the same decision, counters and
store writes, because the router re-reads the prior fingerprint from the
store. -/
theorem previous_fp_unused (env : Env) (cfg : RouterConfig) (st : RouterState)
    (url : String) (screenshot_bytes : List Nat) (pf1 pf2 : Option PageRow)
    (cb : GeminiCb) :
    check_or_escalate env cfg st url screenshot_bytes pf1 cb =
    check_or_escalate env cfg st url screenshot_bytes pf2 cb := rfl

/-- C10: the `runs` table is keyed by the whole-second timestamp, declared
PRIMARY KEY; a successful `record_run_summary` appends exactly one row, and a
second call with the same timestamp does not append another row but fails
with the uniqueness-constraint error, which propagates to the caller. -/
theorem run_summary_same_second (fp fp1 : Footprints) (now a b c a2 b2 c2 : Nat)
    (h : fp.record_run_summary now a b c = .ok fp1) :
    fp1.runs.length = fp.runs.length + 1 ∧
    fp1.record_run_summary now a2 b2 c2 =
      .error "UNIQUE constraint failed: runs.ts" := by
  unfold Footprints.record_run_summary at h
  split_ifs at h with hc
  obtain rfl := Except.ok.inj h
  refine ⟨by simp, ?_⟩
  have hc2 : (fp.runs ++ [(⟨now, a, b, c⟩ : RunRow)]).any (fun r => r.ts = now) = true := by
    simp [List.any_append]
  simp [Footprints.record_run_summary, hc2]

/-- Witness for C10 at a concrete store and timestamp. -/
theorem run_summary_same_second_witness :
    (Footprints.mk [] [] [⟨5, 1, 2, 3⟩]).runs.length =
      (Footprints.mk [] [] []).runs.length + 1 ∧
    (Footprints.mk [] [] [⟨5, 1, 2, 3⟩]).record_run_summary 5 9 9 9 =
      .error "UNIQUE constraint failed: runs.ts" :=
  run_summary_same_second ⟨[], [], []⟩ ⟨[], [], [⟨5, 1, 2, 3⟩]⟩ 5 1 2 3 9 9 9 (by rfl)

/-- C6: on an existing row, `upsert` overwrites exactly the supplied fields,
keeps every unsupplied field (in particular `first_seen` and each tier's text
hash when not supplied, so an azure-tier update never alters the stored
paddle hash and vice versa, and a disabled or skipped tier leaves its hash
untouched), refreshes `last_seen` to the current time, and leaves every other
url's row unchanged. -/
theorem upsert_partial_update (fp : Footprints) (url : String) (row : PageRow)
    (kvs : UpsertArgs) (now : Nat) (h : fp.get url = some row) :
    ∃ row', (fp.upsert url kvs now).get url = some row' ∧
      row'.last_seen = now ∧
      row'.first_seen = row.first_seen ∧
      row'.screenshot_sha = kvs.screenshot_sha.getD row.screenshot_sha ∧
      row'.text_sha_paddle = kvs.text_sha_paddle.getD row.text_sha_paddle ∧
      row'.text_sha_azure = kvs.text_sha_azure.getD row.text_sha_azure ∧
      row'.last_model = kvs.last_model.getD row.last_model ∧
      row'.canonical_url = kvs.canonical_url.getD row.canonical_url ∧
      row'.etag = kvs.etag.getD row.etag ∧
      row'.last_modified = kvs.last_modified.getD row.last_modified ∧
      (kvs.text_sha_paddle = none → row'.text_sha_paddle = row.text_sha_paddle) ∧
      (kvs.text_sha_azure = none → row'.text_sha_azure = row.text_sha_azure) ∧
      (∀ u, u ≠ url → (fp.upsert url kvs now).get u = fp.get u) := by
  refine ⟨applyKvs row kvs now, ?_, rfl, rfl, rfl, rfl, rfl, rfl, rfl, rfl, rfl,
    ?_, ?_, ?_⟩
  · show (fp.upsert url kvs now).get url = some (applyKvs row kvs now)
    unfold Footprints.upsert
    rw [h]
    show pagesGet (pagesUpdate fp.pages url kvs now) url = _
    rw [pagesGet_update_self]
    unfold Footprints.get at h
    rw [h]
    rfl
  · intro hp
    simp [applyKvs, hp]
  · intro ha
    simp [applyKvs, ha]
  · intro u hu
    unfold Footprints.upsert
    rw [h]
    show pagesGet (pagesUpdate fp.pages url kvs now) u = _
    rw [pagesGet_update_other fp.pages url kvs now u hu]
    rfl

/-- Witness for C6: updating only the azure hash of an existing row keeps the
paddle hash and `first_seen`, and refreshes `last_seen`. -/
theorem upsert_partial_update_witness :
    ∃ row', ((Footprints.mk [("u", rowW)] [] []).upsert "u"
        (azureArgs "IMG2" "TA2") 99).get "u" = some row' ∧
      row'.last_seen = 99 ∧
      row'.first_seen = rowW.first_seen ∧
      row'.screenshot_sha = (azureArgs "IMG2" "TA2").screenshot_sha.getD rowW.screenshot_sha ∧
      row'.text_sha_paddle = (azureArgs "IMG2" "TA2").text_sha_paddle.getD rowW.text_sha_paddle ∧
      row'.text_sha_azure = (azureArgs "IMG2" "TA2").text_sha_azure.getD rowW.text_sha_azure ∧
      row'.last_model = (azureArgs "IMG2" "TA2").last_model.getD rowW.last_model ∧
      row'.canonical_url = (azureArgs "IMG2" "TA2").canonical_url.getD rowW.canonical_url ∧
      row'.etag = (azureArgs "IMG2" "TA2").etag.getD rowW.etag ∧
      row'.last_modified = (azureArgs "IMG2" "TA2").last_modified.getD rowW.last_modified ∧
      ((azureArgs "IMG2" "TA2").text_sha_paddle = none →
        row'.text_sha_paddle = rowW.text_sha_paddle) ∧
      ((azureArgs "IMG2" "TA2").text_sha_azure = none →
        row'.text_sha_azure = rowW.text_sha_azure) ∧
      (∀ u, u ≠ "u" → ((Footprints.mk [("u", rowW)] [] []).upsert "u"
        (azureArgs "IMG2" "TA2") 99).get u = (Footprints.mk [("u", rowW)] [] []).get u) :=
  upsert_partial_update ⟨[("u", rowW)], [], []⟩ "u" rowW (azureArgs "IMG2" "TA2") 99 (by rfl)

/-- C2: when a prior fingerprint exists whose stored screenshot hash equals
the hash of the new screenshot bytes, `check_or_escalate` increments the
skip counter, upserts the store with the screenshot hash (which refreshes
`last_seen` and keeps both tier text hashes), returns
`status=skipped, changed=false, fields={}`, and runs no analyzer: the result
is unchanged under any replacement of the OCR backends and of the Gemini
callback (only the image hash function and the clock matter). -/
theorem fast_path_skip (env : Env) (cfg : RouterConfig) (st : RouterState)
    (url : String) (screenshot_bytes : List Nat) (pf : Option PageRow)
    (cb : GeminiCb) (row : PageRow)
    (h : st.store.get url = some row)
    (hm : row.screenshot_sha = env.imgSha screenshot_bytes) :
    check_or_escalate env cfg st url screenshot_bytes pf cb =
      .ok (⟨"skipped", false, []⟩,
        { st with skipped_nochange := st.skipped_nochange + 1,
                  store := st.store.upsert url
                    (shotOnlyArgs (env.imgSha screenshot_bytes)) env.now }) ∧
    (∃ row', (st.store.upsert url (shotOnlyArgs (env.imgSha screenshot_bytes))
        env.now).get url = some row' ∧
      row'.last_seen = env.now ∧
      row'.screenshot_sha = env.imgSha screenshot_bytes ∧
      row'.text_sha_paddle = row.text_sha_paddle ∧
      row'.text_sha_azure = row.text_sha_azure) ∧
    (∀ env2 cb2, env2.imgSha = env.imgSha → env2.now = env.now →
      check_or_escalate env2 cfg st url screenshot_bytes pf cb2 =
      check_or_escalate env cfg st url screenshot_bytes pf cb) := by
  refine ⟨?_, ?_, ?_⟩
  · unfold check_or_escalate
    rw [h]
    simp [hm]
  · refine ⟨applyKvs row (shotOnlyArgs (env.imgSha screenshot_bytes)) env.now,
      ?_, rfl, rfl, rfl, rfl⟩
    unfold Footprints.upsert
    rw [h]
    show pagesGet (pagesUpdate st.store.pages url _ env.now) url = _
    rw [pagesGet_update_self]
    unfold Footprints.get at h
    rw [h]
    rfl
  · intro env2 cb2 himg hnow
    unfold check_or_escalate
    rw [h, himg, hnow]
    simp [hm]

/-- Witness for C2: with the stored hash matching, the call returns the skip
decision and increments only the skip counter. -/
theorem fast_path_skip_witness :
    check_or_escalate envW RouterConfig.default stW "u" [] none none =
      .ok (⟨"skipped", false, []⟩,
        { stW with skipped_nochange := stW.skipped_nochange + 1,
                   store := stW.store.upsert "u"
                     (shotOnlyArgs (envW.imgSha [])) envW.now }) :=
  (fast_path_skip envW RouterConfig.default stW "u" [] none none rowW
    (by rfl) (by rfl)).1

/-- On a non-empty list, `lastOpt` is the last element. -/
theorem lastOpt_getLast? (stages : List String) (last : Option String)
    (h : stages ≠ []) : lastOpt stages last = stages.getLast? := by
  induction stages generalizing last with
  | nil => exact absurd rfl h
  | cons s rest ih =>
    match rest, ih with
    | [], _ => rfl
    | a :: l, ih =>
      show lastOpt (a :: l) (some s) = (s :: a :: l).getLast?
      exact (ih (some s) (List.cons_ne_nil a l)).trans List.getLast?_cons_cons.symm

/-- With no stages left, the walk returns the conservative exhaustion
decision, or the noop decision when no analyzer ever ran. -/
theorem tierWalk_nil (env : Env) (cfg : RouterConfig) (url shot_sha pp pa : String)
    (bytes : List Nat) (cb : GeminiCb) (st : RouterState) (ocr : Bool)
    (last : Option String) :
    tierWalk env cfg url shot_sha pp pa bytes cb [] st ocr last =
      if ocr then .ok (⟨lastStageOrOcr last, true, []⟩, st)
      else .ok (⟨"noop", true, []⟩, st) := by
  cases last <;> rfl

/-- One loop iteration that does not produce a terminal decision continues
with the state effect of `applyStage`, with `ocr_used` set when an analyzer
ran and `last_stage` set to the iterated stage. -/
theorem tierWalk_step_noreturn (env : Env) (cfg : RouterConfig)
    (url shot_sha pp pa : String) (bytes : List Nat) (cb : GeminiCb)
    (s : String) (rest : List String) (st : RouterState) (ocr : Bool)
    (last : Option String)
    (hns : stageReturns env cfg bytes pp pa s = false) :
    tierWalk env cfg url shot_sha pp pa bytes cb (s :: rest) st ocr last =
      tierWalk env cfg url shot_sha pp pa bytes cb rest
        (applyStage env cfg url shot_sha bytes st s)
        (ocr || stageRuns cfg s) (some s) := by
  by_cases hp : s = "paddle" ∧ cfg.enable_paddle = true
  · obtain ⟨rfl, hen⟩ := hp
    have hneed : needs_escalation env cfg (some (env.paddleRun bytes)) pp = true := by
      simpa [stageReturns, hen] using hns
    rw [tierWalk]
    simp [hen, hneed, applyStage, stageRuns]
  · by_cases ha : s = "azure" ∧ cfg.enable_azure = true
    · obtain ⟨rfl, hen⟩ := ha
      have hneed : needs_escalation env cfg (some (env.azureRun bytes)) pa = true := by
        simpa [stageReturns, hp, hen] using hns
      rw [tierWalk]
      simp [hp, hen, hneed, applyStage, stageRuns]
    · by_cases hg : s = "gemini" ∧ cfg.enable_gemini = true
      · exfalso
        simp [stageReturns, hp, ha, hg] at hns
      · rw [tierWalk]
        simp [hp, ha, hg, applyStage, stageRuns]

/-- A run of non-returning iterations accumulates `applyStages`, ors the
`ocr_used` flag with whether any of them ran an analyzer, and moves
`last_stage` to the last iterated stage. -/
theorem tierWalk_preRun (env : Env) (cfg : RouterConfig)
    (url shot_sha pp pa : String) (bytes : List Nat) (cb : GeminiCb)
    (pre suf : List String) :
    ∀ (st : RouterState) (ocr : Bool) (last : Option String),
    (∀ s ∈ pre, stageReturns env cfg bytes pp pa s = false) →
    tierWalk env cfg url shot_sha pp pa bytes cb (pre ++ suf) st ocr last =
      tierWalk env cfg url shot_sha pp pa bytes cb suf
        (applyStages env cfg url shot_sha bytes st pre)
        (ocr || pre.any (fun s => stageRuns cfg s))
        (lastOpt pre last) := by
  induction pre with
  | nil =>
    intro st ocr last _
    simp [applyStages, lastOpt]
  | cons s rest ih =>
    intro st ocr last h
    have hs := h s (List.mem_cons_self s rest)
    have hrest : ∀ x ∈ rest, stageReturns env cfg bytes pp pa x = false :=
      fun x hx => h x (List.mem_cons_of_mem s hx)
    rw [List.cons_append,
      tierWalk_step_noreturn env cfg url shot_sha pp pa bytes cb s
        (rest ++ suf) st ocr last hs,
      ih _ _ _ hrest]
    simp [applyStages, lastOpt, Bool.or_assoc]

/-- When the fast-path condition fails, `check_or_escalate` is the tier walk
over the configured order, started with the tier hashes read from the store. -/
theorem check_eq_walk (env : Env) (cfg : RouterConfig) (st : RouterState)
    (url : String) (bytes : List Nat) (pf : Option PageRow) (cb : GeminiCb)
    (hskip : fastSkipCond env st.store url bytes = false) :
    check_or_escalate env cfg st url bytes pf cb =
      tierWalk env cfg url (env.imgSha bytes) (prevPaddleSha st.store url)
        (prevAzureSha st.store url) bytes cb cfg.order st false none := by
  cases hprev : st.store.get url with
  | none => simp [check_or_escalate, hprev, prevPaddleSha, prevAzureSha]
  | some p =>
    have hph : ¬(p.screenshot_sha = env.imgSha bytes) := by
      simp [fastSkipCond, hprev] at hskip
      exact hskip
    simp [check_or_escalate, hprev, hph, prevPaddleSha, prevAzureSha]

/-- When the fast-path condition holds, `check_or_escalate` skips. -/
theorem check_eq_skip (env : Env) (cfg : RouterConfig) (st : RouterState)
    (url : String) (bytes : List Nat) (pf : Option PageRow) (cb : GeminiCb)
    (hskip : fastSkipCond env st.store url bytes = true) :
    check_or_escalate env cfg st url bytes pf cb =
      .ok (⟨"skipped", false, []⟩,
        { st with skipped_nochange := st.skipped_nochange + 1,
                  store := st.store.upsert url
                    (shotOnlyArgs (env.imgSha bytes)) env.now }) := by
  cases hprev : st.store.get url with
  | none => simp [fastSkipCond, hprev] at hskip
  | some p =>
    have hph : p.screenshot_sha = env.imgSha bytes := by
      simp [fastSkipCond, hprev] at hskip
      exact hskip
    simp [check_or_escalate, hprev, hph]

/-- C3 counterexample: with only the paddle tier enabled (azure and gemini
disabled) and paddle escalating on blank text, the tier walk exhausts and the
returned status is "gemini" — the last stage *iterated* by the loop — even
though the only tier that actually ran is paddle.  The claim's predicted
status "paddle" is wrong at this input. -/
theorem exhaustion_status_cex :
    (check_or_escalate envW cfgPaddleOnly st0 "u" [] none none).toOption.map
      (fun p => p.1.status) = some "gemini" ∧ ("gemini" : String) ≠ "paddle" := by
  constructor
  · rfl
  · decide

/-- C3 (amended): when the fast path does not fire, no stage of the order
produces a terminal decision, and at least one analyzer tier runs, the call
returns `changed=true, fields={}` with status equal to the LAST ELEMENT of
the configured order when that element is a non-empty string and "ocr" when
it is empty (Python's `last_stage or "ocr"` coalescing) — the loop records
every iterated stage in `last_stage`, enabled or not — rather than the last
tier that actually ran. -/
theorem exhaustion_status_last_of_order (env : Env) (cfg : RouterConfig)
    (st : RouterState) (url : String) (bytes : List Nat) (pf : Option PageRow)
    (cb : GeminiCb)
    (hskip : fastSkipCond env st.store url bytes = false)
    (hnone : ∀ s ∈ cfg.order, stageReturns env cfg bytes
      (prevPaddleSha st.store url) (prevAzureSha st.store url) s = false)
    (hrun : cfg.order.any (fun s => stageRuns cfg s) = true) :
    check_or_escalate env cfg st url bytes pf cb =
      .ok (⟨lastStageOrOcr cfg.order.getLast?, true, []⟩,
        applyStages env cfg url (env.imgSha bytes) bytes st cfg.order) := by
  have hne : cfg.order ≠ [] := by
    intro h0
    rw [h0] at hrun
    cases hrun
  have hstep := check_eq_walk env cfg st url bytes pf cb hskip
  have hpre := tierWalk_preRun env cfg url (env.imgSha bytes)
    (prevPaddleSha st.store url) (prevAzureSha st.store url) bytes cb
    cfg.order [] st false none hnone
  rw [List.append_nil] at hpre
  rw [hstep, hpre, lastOpt_getLast? cfg.order none hne, tierWalk_nil]
  simp [hrun]

/-- Witness for the amended C3 at a concrete configuration: paddle runs and
escalates on blank text, azure and gemini are disabled, and the returned
status is the final (non-empty) element of the order. -/
theorem exhaustion_status_last_of_order_witness :
    check_or_escalate envW cfgPaddleOnly st0 "u" [] none none =
      .ok (⟨lastStageOrOcr cfgPaddleOnly.order.getLast?, true, []⟩,
        applyStages envW cfgPaddleOnly "u" (envW.imgSha []) [] st0 cfgPaddleOnly.order) :=
  exhaustion_status_last_of_order envW cfgPaddleOnly st0 "u" [] none none
    (by decide) (by decide) (by decide)

/-- C5: when the Gemini callback raises, the exception propagates out of
`check_or_escalate` uncaught (the `.error` result), and the expensive tier's
store update (screenshot hash + lastTier=gemini) is not performed: the error
state carries exactly the store as it stood when the expensive tier began
(the accumulated effects of the earlier, escalating tiers), with only the
escalation counter incremented. -/
theorem gemini_error_leaves_store (env : Env) (cfg : RouterConfig)
    (st : RouterState) (url : String) (bytes : List Nat) (pf : Option PageRow)
    (f : Unit → Except Unit Fields) (pre rest : List String)
    (hskip : fastSkipCond env st.store url bytes = false)
    (horder : cfg.order = pre ++ "gemini" :: rest)
    (hpre : ∀ s ∈ pre, stageReturns env cfg bytes
      (prevPaddleSha st.store url) (prevAzureSha st.store url) s = false)
    (hg : cfg.enable_gemini = true)
    (hf : f () = .error ()) :
    check_or_escalate env cfg st url bytes pf (some f) =
      .error ⟨(applyStages env cfg url (env.imgSha bytes) bytes st pre).store,
        (applyStages env cfg url (env.imgSha bytes) bytes st pre).skipped_nochange,
        (applyStages env cfg url (env.imgSha bytes) bytes st pre).used_cheap_ocr,
        (applyStages env cfg url (env.imgSha bytes) bytes st pre).escalated_to_gemini + 1⟩ := by
  rw [check_eq_walk env cfg st url bytes pf (some f) hskip, horder,
    tierWalk_preRun env cfg url (env.imgSha bytes)
      (prevPaddleSha st.store url) (prevAzureSha st.store url) bytes (some f)
      pre ("gemini" :: rest) st false none hpre]
  rw [tierWalk]
  simp [hg, hf]

/-- Witness for C5: with an empty store and the order starting at gemini, the
raising callback yields the error outcome with the store unchanged and only
the escalation counter bumped. -/
theorem gemini_error_leaves_store_witness :
    check_or_escalate envW cfgGeminiFirst st0 "u" [] none (some cbRaise) =
      .error ⟨(applyStages envW cfgGeminiFirst "u" (envW.imgSha []) [] st0 []).store,
        (applyStages envW cfgGeminiFirst "u" (envW.imgSha []) [] st0 []).skipped_nochange,
        (applyStages envW cfgGeminiFirst "u" (envW.imgSha []) [] st0 []).used_cheap_ocr,
        (applyStages envW cfgGeminiFirst "u" (envW.imgSha []) [] st0 []).escalated_to_gemini + 1⟩ :=
  gemini_error_leaves_store envW cfgGeminiFirst st0 "u" [] none cbRaise [] []
    (by decide) rfl (by simp) rfl rfl

/-- Every escalation row present after a tier walk was either already in the
store or was written by `record_escalation` with the constant reason
"low_conf_or_changed" and constant toTier "next". -/
theorem tierWalk_escalations (env : Env) (cfg : RouterConfig)
    (url shot_sha pp pa : String) (bytes : List Nat) (cb : GeminiCb) :
    ∀ (order : List String) (st : RouterState) (ocr : Bool)
      (last : Option String) (r : EscalRow),
    r ∈ (stateOf (tierWalk env cfg url shot_sha pp pa bytes cb order st ocr
        last)).store.escalations →
    r ∈ st.store.escalations ∨
      (r.reason = "low_conf_or_changed" ∧ r.to_model = "next") := by
  intro order
  induction order with
  | nil =>
    intro st ocr last r hr
    rw [tierWalk_nil] at hr
    split_ifs at hr <;> exact Or.inl hr
  | cons s rest ih =>
    intro st ocr last r hr
    by_cases hp : s = "paddle" ∧ cfg.enable_paddle = true
    · obtain ⟨rfl, hen⟩ := hp
      rw [tierWalk] at hr
      by_cases hne : needs_escalation env cfg (some (env.paddleRun bytes)) pp = false
      · simp [hen, hne, stateOf] at hr
        rw [upsert_escalations] at hr
        exact Or.inl hr
      · have hne' : needs_escalation env cfg (some (env.paddleRun bytes)) pp = true := by
          revert hne
          cases needs_escalation env cfg (some (env.paddleRun bytes)) pp <;> simp
        simp only [hen, and_true, if_true, hne', Bool.true_eq_false, if_false,
          reduceIte] at hr
        rcases ih _ _ _ r hr with hmem | hconst
        · have hsplit : r ∈ st.store.escalations ++
              [⟨env.now, url, "paddle", "next", "low_conf_or_changed",
                (env.paddleRun bytes).confidence, (env.paddleRun bytes).text.length⟩] := by
            simpa [Footprints.record_escalation, upsert_escalations] using hmem
          rcases List.mem_append.mp hsplit with h1 | h2
          · exact Or.inl h1
          · rw [List.mem_singleton] at h2
            subst h2
            exact Or.inr ⟨rfl, rfl⟩
        · exact Or.inr hconst
    · by_cases ha : s = "azure" ∧ cfg.enable_azure = true
      · obtain ⟨rfl, hen⟩ := ha
        rw [tierWalk] at hr
        by_cases hne : needs_escalation env cfg (some (env.azureRun bytes)) pa = false
        · simp [hp, hen, hne, stateOf] at hr
          rw [upsert_escalations] at hr
          exact Or.inl hr
        · have hne' : needs_escalation env cfg (some (env.azureRun bytes)) pa = true := by
            revert hne
            cases needs_escalation env cfg (some (env.azureRun bytes)) pa <;> simp
          simp only [hp, hen, and_true, if_true, hne', Bool.true_eq_false, if_false,
            reduceIte] at hr
          rcases ih _ _ _ r hr with hmem | hconst
          · have hsplit : r ∈ st.store.escalations ++
                [⟨env.now, url, "azure", "next", "low_conf_or_changed",
                  (env.azureRun bytes).confidence, (env.azureRun bytes).text.length⟩] := by
              simpa [Footprints.record_escalation, upsert_escalations] using hmem
            rcases List.mem_append.mp hsplit with h1 | h2
            · exact Or.inl h1
            · rw [List.mem_singleton] at h2
              subst h2
              exact Or.inr ⟨rfl, rfl⟩
          · exact Or.inr hconst
      · by_cases hg : s = "gemini" ∧ cfg.enable_gemini = true
        · obtain ⟨rfl, hen⟩ := hg
          rw [tierWalk] at hr
          cases cb with
          | none =>
            simp [hp, ha, hen, stateOf] at hr
            rw [upsert_escalations] at hr
            exact Or.inl hr
          | some f =>
            cases hfv : f () with
            | ok fields =>
              simp [hp, ha, hen, hfv, stateOf] at hr
              rw [upsert_escalations] at hr
              exact Or.inl hr
            | error e =>
              simp [hp, ha, hen, hfv, stateOf] at hr
              exact Or.inl hr
        · rw [tierWalk] at hr
          simp only [hp, ha, hg, if_false, reduceIte] at hr
          exact ih _ _ _ r hr

/-- C4 (amended): every EscalationEvent row written by the router — whatever
clause of the escalation predicate fired — carries the single constant reason
string "low_conf_or_changed" and the constant toTier "next"; the reason is
not derived from the firing clause and is not drawn from the claimed enum. -/
theorem escalation_reason_constant (env : Env) (cfg : RouterConfig)
    (st : RouterState) (url : String) (bytes : List Nat) (pf : Option PageRow)
    (cb : GeminiCb) (r : EscalRow)
    (hr : r ∈ (stateOf (check_or_escalate env cfg st url bytes pf
        cb)).store.escalations) :
    r ∈ st.store.escalations ∨
      (r.reason = "low_conf_or_changed" ∧ r.to_model = "next") := by
  by_cases hskip : fastSkipCond env st.store url bytes = true
  · rw [check_eq_skip env cfg st url bytes pf cb hskip] at hr
    simp only [stateOf] at hr
    rw [upsert_escalations] at hr
    exact Or.inl hr
  · have hskip' : fastSkipCond env st.store url bytes = false := by
      revert hskip
      cases fastSkipCond env st.store url bytes <;> simp
    rw [check_eq_walk env cfg st url bytes pf cb hskip'] at hr
    exact tierWalk_escalations env cfg url (env.imgSha bytes)
      (prevPaddleSha st.store url) (prevAzureSha st.store url) bytes cb
      cfg.order st false none r hr

/-- C4 counterexample: a tier that escalates solely because the confidence is
below `min_confidence` (text non-blank, length not below the threshold, no
prior hash) records the reason "low_conf_or_changed", which is none of
low-confidence, low-text-volume, content-changed. -/
theorem escalation_reason_cex :
    (stateOf (check_or_escalate envLowConf cfgLowConf st0 "u" [] none
        none)).store.escalations.map (fun r => r.reason) =
      ["low_conf_or_changed"] ∧
    ¬ (stripStr "abc" = "") ∧
    ¬ ((3:Nat) < cfgLowConf.min_chars_for_confidence) ∧
    ((0:ℚ) < cfgLowConf.min_confidence) ∧
    prevPaddleSha st0.store "u" = "" ∧
    ¬ ("low_conf_or_changed" = "low-confidence" ∨
       "low_conf_or_changed" = "low-text-volume" ∨
       "low_conf_or_changed" = "content-changed") := by
  refine ⟨rfl, by decide, by decide, by decide, rfl, by decide⟩

/-- Witness for the amended C4 at a concrete run that wrote one row. -/
theorem escalation_reason_constant_witness :
    (⟨100, "u", "paddle", "next", "low_conf_or_changed", 0, 3⟩ : EscalRow) ∈
        st0.store.escalations ∨
      ((⟨100, "u", "paddle", "next", "low_conf_or_changed", 0, 3⟩ :
          EscalRow).reason = "low_conf_or_changed" ∧
       (⟨100, "u", "paddle", "next", "low_conf_or_changed", 0, 3⟩ :
          EscalRow).to_model = "next") :=
  escalation_reason_constant envLowConf cfgLowConf st0 "u" [] none none
    ⟨100, "u", "paddle", "next", "low_conf_or_changed", 0, 3⟩ (by decide)

/-- A tier walk ending in a normal decision adds exactly 1 to the counter sum
when some stage returns (cheap-tier resolution or the expensive tier) and 0
otherwise (exhaustion and noop). -/
theorem tierWalk_sum (env : Env) (cfg : RouterConfig) (url shot_sha pp pa : String)
    (bytes : List Nat) (cb : GeminiCb) :
    ∀ (order : List String) (st : RouterState) (ocr : Bool)
      (last : Option String) (d : Decision) (st' : RouterState),
    tierWalk env cfg url shot_sha pp pa bytes cb order st ocr last = .ok (d, st') →
    counterSum st' = counterSum st +
      (if order.any (fun s => stageReturns env cfg bytes pp pa s) then 1
       else 0) := by
  intro order
  induction order with
  | nil =>
    intro st ocr last d st' h
    rw [tierWalk_nil] at h
    split_ifs at h <;> (cases h; simp [counterSum])
  | cons s rest ih =>
    intro st ocr last d st' h
    by_cases hp : s = "paddle" ∧ cfg.enable_paddle = true
    · obtain ⟨rfl, hen⟩ := hp
      have hsr : stageReturns env cfg bytes pp pa "paddle" =
          !(needs_escalation env cfg (some (env.paddleRun bytes)) pp) := by
        simp [stageReturns, hen]
      rw [tierWalk] at h
      by_cases hne : needs_escalation env cfg (some (env.paddleRun bytes)) pp = false
      · simp only [hen, and_true, if_true, hne, reduceIte] at h
        cases h
        simp [counterSum, List.any_cons, hsr, hne]
        omega
      · have hne' : needs_escalation env cfg (some (env.paddleRun bytes)) pp = true := by
          revert hne
          cases needs_escalation env cfg (some (env.paddleRun bytes)) pp <;> simp
        simp only [hen, and_true, if_true, hne', Bool.true_eq_false, reduceIte] at h
        rw [ih _ _ _ _ _ h]
        simp [counterSum, List.any_cons, hsr, hne']
    · by_cases ha : s = "azure" ∧ cfg.enable_azure = true
      · obtain ⟨rfl, hen⟩ := ha
        have hsr : stageReturns env cfg bytes pp pa "azure" =
            !(needs_escalation env cfg (some (env.azureRun bytes)) pa) := by
          simp [stageReturns, hp, hen]
        rw [tierWalk] at h
        by_cases hne : needs_escalation env cfg (some (env.azureRun bytes)) pa = false
        · simp only [hp, hen, and_true, if_true, hne, reduceIte] at h
          cases h
          simp [counterSum, List.any_cons, hsr, hne]
          omega
        · have hne' : needs_escalation env cfg (some (env.azureRun bytes)) pa = true := by
            revert hne
            cases needs_escalation env cfg (some (env.azureRun bytes)) pa <;> simp
          simp only [hp, hen, and_true, if_true, hne', Bool.true_eq_false, reduceIte] at h
          rw [ih _ _ _ _ _ h]
          simp [counterSum, List.any_cons, hsr, hne']
      · by_cases hg : s = "gemini" ∧ cfg.enable_gemini = true
        · obtain ⟨rfl, hen⟩ := hg
          have hsr : stageReturns env cfg bytes pp pa "gemini" = true := by
            simp [stageReturns, hp, ha, hen]
          rw [tierWalk] at h
          cases cb with
          | none =>
            simp only [hp, ha, hen, and_true, if_true, reduceIte] at h
            cases h
            simp [counterSum, List.any_cons, hsr]
            omega
          | some f =>
            cases hfv : f () with
            | ok fields =>
              simp only [hp, ha, hen, and_true, if_true, hfv, reduceIte] at h
              cases h
              simp [counterSum, List.any_cons, hsr]
              omega
            | error e =>
              simp only [hp, ha, hen, and_true, if_true, hfv, reduceIte] at h
              cases h
        · have hsr : stageReturns env cfg bytes pp pa s = false := by
            simp [stageReturns, hp, ha, hg]
          rw [tierWalk] at h
          simp only [hp, ha, hg, if_false, reduceIte] at h
          rw [ih _ _ _ _ _ h]
          simp [List.any_cons, hsr]

/-- A single non-error call adds exactly 1 to the counter sum when it reaches
a counted terminal decision and 0 otherwise. -/
theorem check_sum (env : Env) (cfg : RouterConfig) (st : RouterState)
    (url : String) (bytes : List Nat) (pf : Option PageRow) (cb : GeminiCb)
    (d : Decision) (st' : RouterState)
    (h : check_or_escalate env cfg st url bytes pf cb = .ok (d, st')) :
    counterSum st' = counterSum st +
      (if callTerminal env cfg st url bytes then 1 else 0) := by
  by_cases hskip : fastSkipCond env st.store url bytes = true
  · rw [check_eq_skip env cfg st url bytes pf cb hskip] at h
    cases h
    simp [counterSum, callTerminal, hskip]
    omega
  · have hskip' : fastSkipCond env st.store url bytes = false := by
      revert hskip
      cases fastSkipCond env st.store url bytes <;> simp
    rw [check_eq_walk env cfg st url bytes pf cb hskip'] at h
    rw [tierWalk_sum env cfg url (env.imgSha bytes) (prevPaddleSha st.store url)
      (prevAzureSha st.store url) bytes cb cfg.order st false none d st' h]
    simp [callTerminal, hskip']

/-- C7: over any batch of non-error calls, the counter sum grows by exactly
the number of calls whose tier walk reached a counted terminal decision
(fast-path skip, cheap-tier resolution, expensive tier reached); exhaustion
and noop calls increment no counter. -/
theorem counter_conservation (env : Env) (cfg : RouterConfig)
    (st : RouterState) (calls : List CallInput) (st' : RouterState)
    (h : runBatch env cfg st calls = some st') :
    counterSum st' = counterSum st + terminalCount env cfg st calls := by
  induction calls generalizing st with
  | nil =>
    simp only [runBatch, Option.some.injEq] at h
    subst h
    simp [terminalCount]
  | cons c cs ih =>
    cases hc : check_or_escalate env cfg st c.url c.bytes c.previous_fp c.cb with
    | error e =>
      simp only [runBatch, hc] at h
      cases h
    | ok p =>
      obtain ⟨d, st1⟩ := p
      simp only [runBatch, hc] at h
      have h1 := check_sum env cfg st c.url c.bytes c.previous_fp c.cb d st1 hc
      have h2 := ih st1 h
      simp only [terminalCount, hc]
      omega

/-- Witness for C7: a two-call batch on one url — a cheap-tier resolution then
a fast-path skip — gives counter sum 2 = number of terminal decisions. -/
theorem counter_conservation_witness :
    counterSum ⟨⟨[("u", ⟨"", 100, 100, "paddle", "IMG", "T", "", "", ""⟩)], [], []⟩, 1, 1, 0⟩ =
      counterSum st0 + terminalCount envCheap cfgCheap st0
        [⟨"u", [], none, none⟩, ⟨"u", [], none, none⟩] :=
  counter_conservation envCheap cfgCheap st0
    [⟨"u", [], none, none⟩, ⟨"u", [], none, none⟩]
    ⟨⟨[("u", ⟨"", 100, 100, "paddle", "IMG", "T", "", "", ""⟩)], [], []⟩, 1, 1, 0⟩
    (by decide)

/-- C8 counterexample: an azure read result with one line of text whose words
report no confidences.  Text is detected, the detector reported no
per-line/per-word confidences at all, and the returned confidence is the
hard-coded 0.9 — not an arithmetic mean of reported confidences (there are
none) and not 0.0. -/
theorem azure_confidence_cex :
    (azureRunModel [[("hello", [])]]).text = "hello" ∧
    (azureCollect [[("hello", [])]]).2 = [] ∧
    (azureRunModel [[("hello", [])]]).confidence = (9:ℚ)/10 ∧
    meanD0 ((azureCollect [[("hello", [])]]).2) = 0 ∧
    ((9:ℚ)/10) ≠ 0 := by
  refine ⟨by decide, rfl, rfl, rfl, by norm_num⟩

/-- C8 (amended): paddle's confidence is always the arithmetic mean of the
scores of the kept lines (0.0 when there are none, hence 0.0 whenever no text
is detected); azure's confidence is the arithmetic mean of the reported word
confidences when at least one word reports one, and otherwise falls back to
0.9 when text was detected and 0.0 when not. -/
theorem analyzer_confidence_formula (pr : List (List PaddleLine))
    (ar : List (List AzureLine)) :
    (paddleRunModel pr).confidence = meanD0 (paddleCollect pr).2 ∧
    (azureRunModel ar).confidence =
      (if (azureCollect ar).2 = [] then
        (if (azureRunModel ar).text ≠ "" then (9:ℚ)/10 else 0)
       else meanD0 (azureCollect ar).2) := by
  constructor
  · by_cases hc : (paddleCollect pr).2 = []
    · simp [paddleRunModel, meanD0, hc]
    · simp [paddleRunModel, meanD0, hc]
  · by_cases hc : (azureCollect ar).2 = []
    · simp [azureRunModel, hc]
    · simp [azureRunModel, meanD0, hc]
